import Mathlib

/-!
Shallow embedding of the block synchronization manager of Elastos.ELA.SPV
(package `sync`, file `src/unnamed/part_000`).

The Go code is a single-consumer actor: one goroutine (`blockHandler`)
drains a message channel and mutates the `SyncManager` state without
locks.  We embed each handler as a pure function from the manager state,
the event payload and an oracle record `Env` (the answers the external
chain backend and peers would give during this one event) to the new
manager state plus a list of externally visible effects.  Reachability is
the reflexive-transitive closure of the induced step relation, starting
from the state built by `New`.

Modelling decisions, each noted again at the definition it concerns:
* `common.Uint256` hashes and `*peer.Peer` identities are abstracted to
  naturals; the handlers only compare them for equality and store them in
  maps and sets.
* Go maps with `struct{}` values become `Finset`; Go map iteration order
  is unspecified, so the one place a map entry is chosen by iteration
  (`limitMap`) takes the choice as an oracle input, and `peerStates` is
  kept as an association list whose order stands for one iteration order.
* The `uint32` counters wrap at 2^32, which the model keeps (`u32succ`,
  `u32add`).
* The `float64` rate comparisons against 0.001 are embedded as the exact
  predicate `rateGtMax`, which provably agrees with the IEEE-754 result
  for all `uint32` operands (see its docstring).
* `msg.MaxInvPerMsg` lives in the external Elastos.ELA.Utility module and
  its numeric value is not part of this repository, so it is a parameter
  `maxInv` throughout.
* The `started`/`shutdown` atomics, the reply channels and `pauseMsg`
  only gate event submission or answer queries; they never change the
  fields the claims speak about, so events are modelled as already
  delivered to a running handler.
-/

namespace SpvSync

/-- Block and transaction hashes (`common.Uint256`) abstracted as
naturals; the sync manager only compares them for equality and stores
them in sets. -/
abbrev Hash := Nat

/-- Peer identity (the pointer `*peer.Peer` used as a map key) abstracted
as a natural number. -/
abbrev PeerId := Nat

/-- Modulus of the Go `uint32` counters. -/
def u32 : Nat := 4294967296

/-- Increment of a Go `uint32` counter (`x++`), wrapping at 2^32. -/
def u32succ (n : Nat) : Nat := (n + 1) % u32

/-- Addition of Go `uint32` counters (`x += y`), wrapping at 2^32. -/
def u32add (a b : Nat) : Nat := (a + b) % u32

/-- Models the Go comparison `float64(num)/float64(den) > 0.001` made by
`badBlockRate()  > maxBadBlockRate` and
`falsePosRate() > maxFalsePositiveRate` (both constants are 0.001), for
`uint32` operands.  When `den = 0` Go computes `+Inf` if `num > 0`
(and `+Inf > 0.001` is true) and `NaN` if `num = 0` (every comparison
with `NaN` is false).  When `den ≠ 0` the IEEE-754 comparison agrees
with the exact rational comparison `num/den > 1/1000`, i.e. with
`1000*num > den`: the two compared doubles carry a relative error below
`2^-52`, while for `num, den < 2^32` two distinct exact values
`num/den` and `1/1000` differ by at least `1/(1000*den)`, which exceeds
the accumulated rounding error at every magnitude (`1000*num < 2^52`),
so rounding can never flip the strict comparison. -/
def rateGtMax (num den : Nat) : Bool :=
  if den = 0 then decide (num ≠ 0) else decide (1000 * num > den)

/-- Inventory vector kinds (`msg.InvType`).  `other` stands for every
unsupported numeric value (for example the error kind): the handlers
treat all of them alike. -/
inductive InvType where
  | block
  | filteredBlock
  | tx
  | other
deriving DecidableEq, Repr

/-- Inventory vector `msg.InvVect`: a kind together with a hash. -/
structure InvVect where
  type : InvType
  hash : Hash
deriving DecidableEq, Repr

/-- Per-peer state tracked by the sync manager (source struct
`peerSyncState`).  The two `map[common.Uint256]struct{}` fields are
embedded as finite sets, the `uint32` counters as naturals kept below
2^32 by every update. -/
structure peerSyncState where
  syncCandidate : Bool
  requestQueue : List InvVect
  requestedTxns : Finset Hash
  requestedBlocks : Finset Hash
  receivedBlocks : Nat
  badBlocks : Nat
  receivedTxs : Nat
  falsePositives : Nat
deriving DecidableEq

/-- Comparison `state.badBlockRate() > maxBadBlockRate` (source
`badBlockRate` divides `badBlocks` by `receivedBlocks` with no zero
guard; the float semantics is captured by `rateGtMax`). -/
def peerSyncState.badBlockRateGtMax (s : peerSyncState) : Bool :=
  rateGtMax s.badBlocks s.receivedBlocks

/-- Comparison `state.falsePosRate() > maxFalsePositiveRate` (source
`falsePosRate` divides `falsePositives` by `receivedTxs` with no zero
guard; the float semantics is captured by `rateGtMax`). -/
def peerSyncState.falsePosRateGtMax (s : peerSyncState) : Bool :=
  rateGtMax s.falsePositives s.receivedTxs

/-- Fields of `SyncManager` that the block handler thread owns.  The Go
`map[*peer.Peer]*peerSyncState` is embedded as an association list; the
list order stands for one of the unspecified Go map iteration orders. -/
structure SyncManager where
  requestedTxns : Finset Hash
  requestedBlocks : Finset Hash
  txMemPool : Finset Hash
  syncPeer : Option PeerId
  peerStates : List (PeerId × peerSyncState)
deriving DecidableEq

/-- Part of the source `Config` consumed by the embedded handlers.  The
chain backend, the filter provider and `MaxPeers` (which only sizes the
channel) are oracles or irrelevant to the handlers' state logic. -/
structure Config where
  minPeersForSync : Nat
deriving DecidableEq

/-- Advertised service bits of a peer.  The source tests
`services&SFNodeNetwork == SFNodeNetwork && services&SFNodeBloom ==
SFNodeBloom` on a bitmask whose constants live in the external p2p
module; the two bit tests are embedded as two booleans. -/
structure ServiceFlags where
  nodeNetwork : Bool
  nodeBloom : Bool
deriving DecidableEq

/-- Errors the chain backend distinguishes for `CommitBlock`
(`blockchain.OrphanBlockError` versus anything else). -/
inductive ChainErr where
  | orphanBlock
  | other
deriving DecidableEq

/-- Result of `sm.cfg.Chain.CommitBlock(block)`:
`(newBlock, reorg, newHeight, fps, err)`.  `fps` is a `uint32`. -/
structure CommitResult where
  newBlock : Bool
  reorg : Bool
  newHeight : Nat
  fps : Nat
  err : Option ChainErr
deriving DecidableEq

/-- Oracle answers of the external collaborators (chain backend and
peers) during the handling of one event.  `bestHeight` is what
`cfg.Chain.BestHeight()` returns before `CommitBlock` runs,
`bestHeightPost` afterwards; `heights p` is `p.Height()`; `haveBlock` is
`cfg.Chain.HaveBlock`; `commit` and `commitTxFp`/`commitTxErr` are the
`CommitBlock`/`CommitTx` results.  `choice` resolves the unspecified Go
map iteration order used by `limitMap` to pick the entry it deletes;
`choiceValid` records that Go always deletes an entry that is present. -/
structure Env where
  bestHeight : Nat
  bestHeightPost : Nat
  heights : PeerId → Nat
  haveBlock : Hash → Bool
  commit : CommitResult
  commitTxFp : Bool
  commitTxErr : Bool
  choice : Finset Hash → Hash
  choiceValid : ∀ s : Finset Hash, s.Nonempty → choice s ∈ s

/-- Externally visible actions a handler performs, in program order:
calls on peers (`Disconnect`, `QueueMessage` of a GetData,
`PushGetBlocksMsg`, `UpdateHeight`), the chain commits, and the start of
`updateBloomFilter` (which queues a filter-load message on the peer). -/
inductive Effect where
  | disconnect (p : PeerId)
  | queueGetData (p : PeerId) (invList : List InvVect)
  | pushGetBlocks (p : PeerId)
  | updateHeight (p : PeerId) (height : Nat)
  | updateBloomFilter (p : PeerId)
  | commitBlock (h : Hash)
  | commitTx (h : Hash)
deriving DecidableEq, Repr

/-- Events drained by the `blockHandler` goroutine that mutate state.
`bloomDone` models the completion branch of the goroutine spawned by
`updateBloomFilter` (source lines 242-255), which zeroes the peer's
false-positive counters; the query events (`getSyncPeerMsg`,
`isCurrentMsg`, `pauseMsg`) never change state and are omitted. -/
inductive Event where
  | newPeer (p : PeerId) (services : ServiceFlags)
  | donePeer (p : PeerId)
  | inv (p : PeerId) (invList : List InvVect)
  | block (p : PeerId) (blockHash : Hash)
  | tx (p : PeerId) (txHash : Hash)
  | bloomDone (p : PeerId)

/-- Go map assignment `sm.peerStates[p] = st`: replaces any existing
entry for `p`. -/
def setPeer (l : List (PeerId × peerSyncState)) (p : PeerId)
    (st : peerSyncState) : List (PeerId × peerSyncState) :=
  (p, st) :: l.filter (fun e => e.1 != p)

/-- Go `delete(sm.peerStates, p)`. -/
def removePeer (l : List (PeerId × peerSyncState)) (p : PeerId) :
    List (PeerId × peerSyncState) :=
  l.filter (fun e => e.1 != p)

/-- Fresh `peerSyncState` installed by `handleNewPeerMsg`. -/
def freshPeerState (cand : Bool) : peerSyncState :=
  { syncCandidate := cand
    requestQueue := []
    requestedTxns := ∅
    requestedBlocks := ∅
    receivedBlocks := 0
    badBlocks := 0
    receivedTxs := 0
    falsePositives := 0 }

/-- Source `isSyncCandidate`: both service bits must be set. -/
def isSyncCandidate (s : ServiceFlags) : Bool :=
  s.nodeNetwork && s.nodeBloom

/-- Source `getSyncCandidates`, reduced to the peer identities: the
callers only use the length of the returned slice (the source in fact
returns pointers to copies of the peers). -/
def getSyncCandidates (sm : SyncManager) : List PeerId :=
  (sm.peerStates.filter fun e => e.2.syncCandidate).map (fun e => e.1)

/-- Source `current()`: true when there is no sync peer, or when
`cfg.Chain.BestHeight()` is at least the sync peer's height. -/
def currentAt (syncPeer : Option PeerId) (heights : PeerId → Nat)
    (bestHeight : Nat) : Bool :=
  match syncPeer with
  | none => true
  | some sp => decide (heights sp ≤ bestHeight)

/-- Source `limitMap`: if adding one more entry would pass `limit`,
delete one map entry picked by Go's unspecified map iteration order
(`choice`).  On an empty map the Go range loop does nothing, and
`Finset.erase` of a foreign element is likewise the identity. -/
def limitMap (choice : Finset Hash → Hash) (m : Finset Hash)
    (limit : Nat) : Finset Hash :=
  if m.card + 1 > limit then m.erase (choice m) else m

/-- Working state of the loop inside `pushGetDataMsg`: the GetData
message being built, `numRequested`, and the two global and two per-peer
in-flight sets the loop mutates. -/
structure PumpState where
  gdmsg : List InvVect
  numRequested : Nat
  globalBlocks : Finset Hash
  globalTxns : Finset Hash
  peerBlocks : Finset Hash
  peerTxns : Finset Hash
deriving DecidableEq

/-- One iteration body of the `pushGetDataMsg` loop (source lines
549-573): on a filtered-block or tx vector not already requested
globally, insert the hash into the global set, run `limitMap` on that
set, insert into the peer's set, add the vector to the GetData and count
it; every other kind falls through the switch unchanged. -/
def pumpItem (maxInv : Nat) (choice : Finset Hash → Hash) (iv : InvVect)
    (ps : PumpState) : PumpState :=
  match iv.type with
  | InvType.filteredBlock =>
    if iv.hash ∈ ps.globalBlocks then ps
    else
      { ps with
        globalBlocks := limitMap choice (insert iv.hash ps.globalBlocks) maxInv
        peerBlocks := insert iv.hash ps.peerBlocks
        gdmsg := ps.gdmsg ++ [iv]
        numRequested := ps.numRequested + 1 }
  | InvType.tx =>
    if iv.hash ∈ ps.globalTxns then ps
    else
      { ps with
        globalTxns := limitMap choice (insert iv.hash ps.globalTxns) maxInv
        peerTxns := insert iv.hash ps.peerTxns
        gdmsg := ps.gdmsg ++ [iv]
        numRequested := ps.numRequested + 1 }
  | _ => ps

/-- Loop of `pushGetDataMsg` (source lines 544-578): drain the request
queue, breaking once `numRequested` reaches `msg.MaxInvPerMsg`
(`maxInv`).  Returns the remaining queue and the final working state. -/
def pushGetDataLoop (maxInv : Nat) (choice : Finset Hash → Hash) :
    List InvVect → PumpState → List InvVect × PumpState
  | [], ps => ([], ps)
  | iv :: rest, ps =>
    let ps' := pumpItem maxInv choice iv ps
    if ps'.numRequested ≥ maxInv then (rest, ps')
    else pushGetDataLoop maxInv choice rest ps'

/-- Source `pushGetDataMsg`: run the loop on the peer's request queue,
write the leftover queue and the updated sets back, and queue the
GetData message on the peer when it is nonempty. -/
def pushGetDataMsg (maxInv : Nat) (choice : Finset Hash → Hash)
    (p : PeerId) (sm : SyncManager) (st : peerSyncState) :
    SyncManager × List Effect :=
  let r := pushGetDataLoop maxInv choice st.requestQueue
    { gdmsg := []
      numRequested := 0
      globalBlocks := sm.requestedBlocks
      globalTxns := sm.requestedTxns
      peerBlocks := st.requestedBlocks
      peerTxns := st.requestedTxns }
  let st' := { st with
    requestQueue := r.1
    requestedBlocks := r.2.peerBlocks
    requestedTxns := r.2.peerTxns }
  ({ sm with
      requestedBlocks := r.2.globalBlocks
      requestedTxns := r.2.globalTxns
      peerStates := setPeer sm.peerStates p st' },
   if r.2.gdmsg.isEmpty then [] else [Effect.queueGetData p r.2.gdmsg])

/-- Source `syncWith`: clear the global `requestedBlocks`, push a
GetBlocks message to the peer, and record it as the sync peer. -/
def syncWith (sm : SyncManager) (p : PeerId) : SyncManager × List Effect :=
  ({ sm with requestedBlocks := ∅, syncPeer := some p },
   [Effect.pushGetBlocks p])

/-- Candidate scan of `startSync` (source lines 167-193): skip
non-candidates, demote candidates whose height is strictly below the
chain's best height, and otherwise keep the first candidate seen,
replacing it whenever a strictly higher one appears.  Returns the
updated peer table and the chosen best peer. -/
def startSyncLoop (heights : PeerId → Nat) (bestHeight : Nat) :
    List (PeerId × peerSyncState) → Option PeerId →
    List (PeerId × peerSyncState) × Option PeerId
  | [], best => ([], best)
  | (p, st) :: rest, best =>
    if st.syncCandidate = false then
      let r := startSyncLoop heights bestHeight rest best
      ((p, st) :: r.1, r.2)
    else if heights p < bestHeight then
      let r := startSyncLoop heights bestHeight rest best
      ((p, { st with syncCandidate := false }) :: r.1, r.2)
    else
      let best' := match best with
        | none => some p
        | some q => if heights p > heights q then some p else some q
      let r := startSyncLoop heights bestHeight rest best'
      ((p, st) :: r.1, r.2)

/-- Source `startSync`: return if fewer sync candidates than
`MinPeersForSync` exist or a sync peer is already set; otherwise scan the
candidates (demoting stale ones) and sync with the winner, if any. -/
def startSync (cfg : Config) (env : Env) (sm : SyncManager) :
    SyncManager × List Effect :=
  if (getSyncCandidates sm).length < cfg.minPeersForSync then (sm, [])
  else if sm.syncPeer ≠ none then (sm, [])
  else
    let r := startSyncLoop env.heights env.bestHeight sm.peerStates none
    let sm' := { sm with peerStates := r.1 }
    match r.2 with
    | some p => syncWith sm' p
    | none => (sm', [])

/-- Source `handleNewPeerMsg`: install a fresh peer state and start
syncing when the new peer is a candidate and no sync peer exists. -/
def handleNewPeerMsg (cfg : Config) (env : Env) (sm : SyncManager)
    (p : PeerId) (services : ServiceFlags) : SyncManager × List Effect :=
  let cand := isSyncCandidate services
  let sm1 := { sm with peerStates := setPeer sm.peerStates p (freshPeerState cand) }
  if cand ∧ sm1.syncPeer = none then startSync cfg env sm1 else (sm1, [])

/-- Source `handleDonePeerMsg`: drop the peer's state, subtract its
outstanding hashes from the global in-flight sets, and when it was the
sync peer clear `syncPeer` and try to pick a new one. -/
def handleDonePeerMsg (cfg : Config) (env : Env) (sm : SyncManager)
    (p : PeerId) : SyncManager × List Effect :=
  match List.lookup p sm.peerStates with
  | none => (sm, [])
  | some st =>
    let sm1 := { sm with
      peerStates := removePeer sm.peerStates p
      requestedTxns := sm.requestedTxns \ st.requestedTxns
      requestedBlocks := sm.requestedBlocks \ st.requestedBlocks }
    if sm.syncPeer = some p then
      startSync cfg env { sm1 with syncPeer := none }
    else (sm1, [])

/-- Source `handleTxMsg`: drop messages from unknown peers; disconnect a
peer sending an unrequested transaction; otherwise add the hash to the
mempool, clear it from both request sets, commit (the commit error is
only logged), and on a false positive bump the counter and reload the
bloom filter when the rate passes the threshold. -/
def handleTxMsg (env : Env) (sm : SyncManager) (p : PeerId)
    (txHash : Hash) : SyncManager × List Effect :=
  match List.lookup p sm.peerStates with
  | none => (sm, [])
  | some st =>
    if txHash ∉ st.requestedTxns then (sm, [Effect.disconnect p])
    else
      let st1 := { st with requestedTxns := st.requestedTxns.erase txHash }
      let sm1 := { sm with
        txMemPool := insert txHash sm.txMemPool
        requestedTxns := sm.requestedTxns.erase txHash
        peerStates := setPeer sm.peerStates p st1 }
      if env.commitTxFp then
        let st2 := { st1 with falsePositives := u32succ st1.falsePositives }
        let sm2 := { sm1 with peerStates := setPeer sm1.peerStates p st2 }
        if st2.falsePosRateGtMax then
          (sm2, [Effect.commitTx txHash, Effect.updateBloomFilter p])
        else (sm2, [Effect.commitTx txHash])
      else (sm1, [Effect.commitTx txHash])

/-- Source `handleBlockMsg`.  Branches in source order: the not-current
gate, the unknown-peer disconnect, the unrequested-block disconnect, the
bookkeeping before `CommitBlock`, then the dispatch on the commit
outcome (orphan while current, orphan while not current, other error,
duplicate, reorg, current, empty queue, pump). -/
def handleBlockMsg (maxInv : Nat) (env : Env) (sm : SyncManager)
    (p : PeerId) (blockHash : Hash) : SyncManager × List Effect :=
  if sm.syncPeer ≠ some p ∧ currentAt sm.syncPeer env.heights env.bestHeight = false then
    (sm, [])
  else
    match List.lookup p sm.peerStates with
    | none => (sm, [Effect.disconnect p])
    | some st =>
      if blockHash ∉ st.requestedBlocks then (sm, [Effect.disconnect p])
      else
        let st1 := { st with
          receivedBlocks := u32succ st.receivedBlocks
          requestedBlocks := st.requestedBlocks.erase blockHash }
        let sm1 := { sm with
          requestedBlocks := sm.requestedBlocks.erase blockHash
          peerStates := setPeer sm.peerStates p st1 }
        let r := env.commit
        let curPost := currentAt sm1.syncPeer env.heights env.bestHeightPost
        if r.err = some ChainErr.orphanBlock ∧ curPost = true then
          let st2 := { st1 with requestQueue := [], requestedBlocks := (∅ : Finset Hash) }
          let sm2 := { sm1 with
            peerStates := setPeer sm1.peerStates p st2
            requestedBlocks := ∅ }
          let sw := syncWith sm2 p
          (sw.1, Effect.commitBlock blockHash :: sw.2)
        else if r.err = some ChainErr.orphanBlock ∧ curPost = false then
          let st2 := { st1 with badBlocks := u32succ st1.badBlocks }
          let sm2 := { sm1 with peerStates := setPeer sm1.peerStates p st2 }
          if st2.badBlockRateGtMax then
            (sm2, [Effect.commitBlock blockHash, Effect.disconnect p])
          else (sm2, [Effect.commitBlock blockHash])
        else if r.err ≠ none then (sm1, [Effect.commitBlock blockHash])
        else
          let st3 := { st1 with falsePositives := u32add st1.falsePositives r.fps }
          let sm3 := { sm1 with peerStates := setPeer sm1.peerStates p st3 }
          -- source lines 431-433: the false-positive check on the block
          -- path has an empty body, so nothing happens here
          if r.newBlock = false then (sm3, [Effect.commitBlock blockHash])
          else
            let st4 := if r.reorg = true ∧ curPost = true then
              { st3 with requestQueue := [], requestedBlocks := (∅ : Finset Hash) } else st3
            let sm4 := if r.reorg = true ∧ curPost = true then
              { sm3 with
                peerStates := setPeer sm3.peerStates p st4
                requestedBlocks := ∅ } else sm3
            let sm5 := { sm4 with txMemPool := ∅ }
            if curPost = true then
              (sm5, [Effect.commitBlock blockHash,
                     Effect.updateHeight p r.newHeight])
            else if st4.requestQueue = [] then
              (sm5, [Effect.commitBlock blockHash, Effect.pushGetBlocks p])
            else
              let pg := pushGetDataMsg maxInv env.choice p sm5 st4
              (pg.1, Effect.commitBlock blockHash :: pg.2)

/-- Per-vector processing of `handleInvMsg` (source lines 517-533):
rewrite block vectors to filtered-block, keep tx vectors, skip all other
kinds, and keep only inventory not already known (the chain's
`HaveBlock` for blocks, mempool membership for transactions). -/
def invFilter (env : Env) (mempool : Finset Hash) (iv : InvVect) :
    Option InvVect :=
  match iv.type with
  | InvType.block =>
    if env.haveBlock iv.hash then none
    else some { type := InvType.filteredBlock, hash := iv.hash }
  | InvType.tx =>
    if iv.hash ∈ mempool then none else some iv
  | _ => none

/-- Source `handleInvMsg`: drop messages from unknown peers; ignore invs
from non-sync peers while not current; otherwise append the surviving
vectors to the peer's request queue and run `pushGetDataMsg`. -/
def handleInvMsg (maxInv : Nat) (env : Env) (sm : SyncManager)
    (p : PeerId) (invList : List InvVect) : SyncManager × List Effect :=
  match List.lookup p sm.peerStates with
  | none => (sm, [])
  | some st =>
    if sm.syncPeer ≠ some p ∧ currentAt sm.syncPeer env.heights env.bestHeight = false then
      (sm, [])
    else
      let st1 := { st with
        requestQueue := st.requestQueue ++ invList.filterMap (invFilter env sm.txMemPool) }
      pushGetDataMsg maxInv env.choice p
        { sm with peerStates := setPeer sm.peerStates p st1 } st1

/-- Completion branch of the goroutine spawned by `updateBloomFilter`
(source lines 242-255): when the filter-load message has been delivered,
zero the peer's false-positive counters if it is still registered. -/
def handleBloomDone (sm : SyncManager) (p : PeerId) :
    SyncManager × List Effect :=
  match List.lookup p sm.peerStates with
  | none => (sm, [])
  | some st =>
    let st' := { st with receivedTxs := 0, falsePositives := 0 }
    ({ sm with peerStates := setPeer sm.peerStates p st' }, [])

/-- Dispatch of the `blockHandler` loop over the state-changing events. -/
def handleEvent (maxInv : Nat) (cfg : Config) (env : Env)
    (sm : SyncManager) : Event → SyncManager × List Effect
  | Event.newPeer p services => handleNewPeerMsg cfg env sm p services
  | Event.donePeer p => handleDonePeerMsg cfg env sm p
  | Event.inv p invList => handleInvMsg maxInv env sm p invList
  | Event.block p blockHash => handleBlockMsg maxInv env sm p blockHash
  | Event.tx p txHash => handleTxMsg env sm p txHash
  | Event.bloomDone p => handleBloomDone sm p

/-- Manager state built by `New` (source lines 770-782). -/
def initialState : SyncManager :=
  { requestedTxns := ∅
    requestedBlocks := ∅
    txMemPool := ∅
    syncPeer := none
    peerStates := [] }

/-- One processed event with some oracle answers. -/
def Step (maxInv : Nat) (cfg : Config) (s s' : SyncManager) : Prop :=
  ∃ ev env, (handleEvent maxInv cfg env s ev).1 = s'

/-- States the manager can reach from `New` by processing events. -/
def Reachable (maxInv : Nat) (cfg : Config) (s : SyncManager) : Prop :=
  Relation.ReflTransGen (Step maxInv cfg) initialState s

/-- Invariant of claim C7: both global in-flight sets hold at most
`maxInv` (that is, `msg.MaxInvPerMsg`, the value of `maxRequestedBlocks`
and `maxRequestedTxns`) hashes. -/
def Bounded (maxInv : Nat) (sm : SyncManager) : Prop :=
  sm.requestedBlocks.card ≤ maxInv ∧ sm.requestedTxns.card ≤ maxInv

/-- Invariant of claim C9: every registered peer's `receivedTxs` counter
is zero (no code path ever increments it). -/
def RxZero (sm : SyncManager) : Prop :=
  ∀ e ∈ sm.peerStates, e.2.receivedTxs = 0

/-- Computable choice function used to instantiate the eviction oracle in
concrete runs: pick the least element, as one possible Go map iteration
order. -/
def minChoice (s : Finset Hash) : Hash :=
  if h : s.Nonempty then s.min' h else 0

/-- Validity of `minChoice`: it always picks an element of a nonempty
set, as the Go range loop does. -/
def minChoiceValid : ∀ s : Finset Hash, s.Nonempty → minChoice s ∈ s :=
  fun s h => by
    simp only [minChoice, dif_pos h]
    exact s.min'_mem h

/-- Concrete oracle: chain at height 0, all peers at height 0, no block
known, commits succeed with nothing to report. -/
def envZero : Env :=
  { bestHeight := 0
    bestHeightPost := 0
    heights := fun _ => 0
    haveBlock := fun _ => false
    commit := { newBlock := false, reorg := false, newHeight := 0, fps := 0, err := none }
    commitTxFp := false
    commitTxErr := false
    choice := minChoice
    choiceValid := minChoiceValid }

/-- Concrete oracle: like `envZero` but every peer reports height 10, so
the manager is not current whenever a sync peer is set. -/
def envTen : Env :=
  { envZero with heights := fun _ => 10 }

/-- Concrete oracle: chain best height 1 and each peer `p` at height `p`,
so peer 0 is below the chain tip and peer 1 is at it. -/
def envRamp : Env :=
  { envZero with bestHeight := 1, heights := fun p => p }

/-- Concrete oracle: `CommitTx` reports a false positive. -/
def envFp : Env :=
  { envZero with commitTxFp := true }

/-- Concrete oracle: `CommitBlock` reports an orphan while every peer is
at height 10 and the chain stays at 0, so the manager is not current. -/
def envOrphan : Env :=
  { envTen with commit := { newBlock := false, reorg := false, newHeight := 0, fps := 0, err := some ChainErr.orphanBlock } }

/-- Configuration requiring one sync candidate. -/
def cfgOne : Config := { minPeersForSync := 1 }

/-- Configuration requiring two sync candidates. -/
def cfgTwo : Config := { minPeersForSync := 2 }

/-- Trace state: a non-candidate peer 0 has just joined. -/
def mgrA1 : SyncManager :=
  { initialState with peerStates := [(0, freshPeerState false)] }

/-- Trace state: peer 0 advertised block 5 and the manager requested it,
so hash 5 sits in peer 0's and the global requested-blocks sets. -/
def mgrA2 : SyncManager :=
  { initialState with
      peerStates := [(0, { freshPeerState false with requestedBlocks := {5} })]
      requestedBlocks := {5} }

/-- Trace state: candidate peer 1 then joined and `startSync` ran
`syncWith`, clearing the global requested-blocks set while peer 0 still
holds hash 5 in its per-peer set. -/
def mgrA3 : SyncManager :=
  { initialState with
      peerStates := [(1, freshPeerState true),
                     (0, { freshPeerState false with requestedBlocks := {5} })]
      syncPeer := some 1 }

/-- Trace state: candidate peer 1 joined an empty manager and became the
sync peer. -/
def mgrB1 : SyncManager :=
  { initialState with
      peerStates := [(1, freshPeerState true)]
      syncPeer := some 1 }

/-- Trace state: non-candidate peer 0 joined while peer 1 is the sync
peer. -/
def mgrB2 : SyncManager :=
  { initialState with
      peerStates := [(0, freshPeerState false), (1, freshPeerState true)]
      syncPeer := some 1 }

/-- Trace state: peer 0 advertised transaction 5 and the manager
requested it. -/
def mgrT2 : SyncManager :=
  { initialState with
      peerStates := [(0, { freshPeerState false with requestedTxns := {5} })]
      requestedTxns := {5} }

/-- Trace state: a single candidate peer 0 has joined under
`cfgTwo`, so `startSync` returned without doing anything. -/
def mgrC10 : SyncManager :=
  { initialState with peerStates := [(0, freshPeerState true)] }

/-- Concrete state with one registered peer 7 that is the sync peer,
carries block hash 5 in flight and has committed 1000 blocks. -/
def mgrD : SyncManager :=
  { initialState with
      peerStates := [(7, { freshPeerState true with
        requestedBlocks := {5}
        receivedBlocks := 1000 })]
      requestedBlocks := {5}
      syncPeer := some 7 }

/-- Concrete state with one known peer 0 that has nothing in flight. -/
def mgrK : SyncManager :=
  { initialState with peerStates := [(0, freshPeerState true)] }

/-! ### Association-list helpers -/

theorem lookup_setPeer_self (l : List (PeerId × peerSyncState)) (p : PeerId)
    (st : peerSyncState) : List.lookup p (setPeer l p st) = some st := by
  simp [setPeer, List.lookup]

theorem mem_setPeer {l : List (PeerId × peerSyncState)} {p q : PeerId}
    {st stq : peerSyncState} (h : (q, stq) ∈ setPeer l p st) :
    stq = st ∨ (q, stq) ∈ l := by
  simp only [setPeer, List.mem_cons, List.mem_filter] at h
  rcases h with h | h
  · exact Or.inl (congrArg Prod.snd h)
  · exact Or.inr h.1

theorem mem_removePeer {l : List (PeerId × peerSyncState)} {p : PeerId}
    {e : PeerId × peerSyncState} (h : e ∈ removePeer l p) : e ∈ l :=
  (List.mem_filter.mp h).1

theorem lookup_mem {l : List (PeerId × peerSyncState)} {p : PeerId}
    {st : peerSyncState} (h : List.lookup p l = some st) : (p, st) ∈ l := by
  induction l with
  | nil => simp [List.lookup] at h
  | cons e t ih =>
    rcases e with ⟨k, v⟩
    rw [List.lookup] at h
    split at h
    next heq =>
      obtain rfl : v = st := by injection h
      obtain rfl : p = k := by simpa using heq
      exact List.mem_cons_self _ _
    next => exact List.mem_cons_of_mem _ (ih h)

/-! ### LimitMap lemmas -/

theorem limitMap_card_le {choice : Finset Hash → Hash}
    (hvalid : ∀ s : Finset Hash, s.Nonempty → choice s ∈ s)
    (m : Finset Hash) (a : Hash) (limit : Nat) (hm : m.card ≤ limit) :
    (limitMap choice (insert a m) limit).card ≤ limit := by
  have hins : (insert a m).card ≤ m.card + 1 := Finset.card_insert_le a m
  unfold limitMap
  split
  · rw [Finset.card_erase_of_mem (hvalid _ (Finset.insert_nonempty a m))]
    omega
  · omega

/-- Claim C4, amended.  With the global set holding exactly `limit`
hashes, the Request Pump first inserts the new hash (source line 554)
and only then runs `limitMap` (line 555), which evicts exactly one entry
of the enlarged set, chosen by map iteration order — possibly the hash
just inserted.  Afterwards the set again holds exactly `limit` entries,
all of them drawn from the old set plus the new hash, and the evicted
entry is the single element lost. -/
theorem limitMap_at_capacity (choice : Finset Hash → Hash)
    (hvalid : ∀ s : Finset Hash, s.Nonempty → choice s ∈ s)
    (m : Finset Hash) (limit : Nat) (h : Hash)
    (hm : m.card = limit) (hh : h ∉ m) :
    (limitMap choice (insert h m) limit).card = limit ∧
    limitMap choice (insert h m) limit ⊆ insert h m ∧
    choice (insert h m) ∈ insert h m ∧
    choice (insert h m) ∉ limitMap choice (insert h m) limit ∧
    (∀ y ∈ insert h m, y ∉ limitMap choice (insert h m) limit →
      y = choice (insert h m)) := by
  have hcard : (insert h m).card = limit + 1 := by
    rw [Finset.card_insert_of_not_mem hh, hm]
  have hmem := hvalid _ (Finset.insert_nonempty h m)
  have hcond : (insert h m).card + 1 > limit := by omega
  unfold limitMap
  rw [if_pos hcond]
  refine ⟨?_, Finset.erase_subset _ _, hmem, Finset.not_mem_erase _ _, ?_⟩
  · rw [Finset.card_erase_of_mem hmem, hcard]
    omega
  · intro y hy hyn
    by_contra hne
    exact hyn (Finset.mem_erase.mpr ⟨hne, hy⟩)

/-- Claim C4, counterexample.  The claim asserts that at capacity the
eviction removes an entry that was present before the insertion and that
the newly inserted hash survives; but `limitMap` runs after the insert
and may evict the new hash itself.  With the set `{1, 2, 3}` at limit 3
and the least-element iteration order, inserting hash 0 evicts 0. -/
theorem limitMap_at_capacity_cex :
    ¬ (∀ (choice : Finset Hash → Hash),
        (∀ s : Finset Hash, s.Nonempty → choice s ∈ s) →
        ∀ (m : Finset Hash) (limit : Nat) (h : Hash),
          m.card = limit → h ∉ m →
          h ∈ limitMap choice (insert h m) limit ∧
          ∃ x ∈ m, x ∉ limitMap choice (insert h m) limit) := by
  intro hcl
  have := (hcl minChoice minChoiceValid ({1, 2, 3} : Finset Hash) 3 0 (by decide) (by decide)).1
  exact absurd this (by decide)

/-- Witness for the amended claim C4 at the set `{1, 2, 3}`, limit 3 and
new hash 0. -/
theorem limitMap_at_capacity_witness :
    (limitMap minChoice (insert 0 ({1, 2, 3} : Finset Hash)) 3).card = 3 ∧
    limitMap minChoice (insert 0 ({1, 2, 3} : Finset Hash)) 3 ⊆ insert 0 ({1, 2, 3} : Finset Hash) ∧
    minChoice (insert 0 ({1, 2, 3} : Finset Hash)) ∈ insert 0 ({1, 2, 3} : Finset Hash) ∧
    minChoice (insert 0 ({1, 2, 3} : Finset Hash)) ∉ limitMap minChoice (insert 0 ({1, 2, 3} : Finset Hash)) 3 ∧
    (∀ y ∈ insert 0 ({1, 2, 3} : Finset Hash), y ∉ limitMap minChoice (insert 0 ({1, 2, 3} : Finset Hash)) 3 →
      y = minChoice (insert 0 ({1, 2, 3} : Finset Hash))) :=
  limitMap_at_capacity minChoice minChoiceValid ({1, 2, 3} : Finset Hash) 3 0 (by decide) (by decide)

/-! ### Unknown-peer handling (claim C2) -/

/-- Claim C2, amended.  An Inv or Tx message from a peer with no entry in
`peerStates` is dropped with no state change, no disconnect and no
effect at all; a Block message from an unknown peer also leaves the
state unchanged, but — unlike what the claim says — `handleBlockMsg`
calls `Disconnect` on the peer whenever the event passes the not-current
entry gate (and drops it silently only when the gate filters it). -/
theorem unknown_peer_drop (maxInv : Nat) (cfg : Config) (env : Env)
    (sm : SyncManager) (p : PeerId) (h : Hash) (invList : List InvVect)
    (hp : List.lookup p sm.peerStates = none) :
    handleEvent maxInv cfg env sm (Event.inv p invList) = (sm, []) ∧
    handleEvent maxInv cfg env sm (Event.tx p h) = (sm, []) ∧
    (handleEvent maxInv cfg env sm (Event.block p h)).1 = sm ∧
    ((sm.syncPeer = some p ∨ currentAt sm.syncPeer env.heights env.bestHeight = true) →
      (handleEvent maxInv cfg env sm (Event.block p h)).2 = [Effect.disconnect p]) ∧
    (sm.syncPeer ≠ some p → currentAt sm.syncPeer env.heights env.bestHeight = false →
      (handleEvent maxInv cfg env sm (Event.block p h)).2 = []) := by
  have hgateiff : ∀ c : Prop, ∀ inst : Decidable c, True := fun _ _ => trivial
  refine ⟨?_, ?_, ?_, ?_, ?_⟩
  · simp [handleEvent, handleInvMsg, hp]
  · simp [handleEvent, handleTxMsg, hp]
  · simp only [handleEvent, handleBlockMsg, hp]
    split
    · rfl
    · rfl
  · intro hgate
    simp only [handleEvent, handleBlockMsg, hp]
    rw [if_neg]
    rintro ⟨hne, hcur⟩
    rcases hgate with hg | hg
    · exact hne hg
    · rw [hg] at hcur
      cases hcur
  · intro hne hcur
    simp only [handleEvent, handleBlockMsg, hp]
    rw [if_pos ⟨hne, hcur⟩]

/-- Claim C2, counterexample.  A Block message from an unknown peer does
cause a `Disconnect` call: at the freshly constructed manager (no sync
peer, so the manager is current and the gate passes), a block from the
unregistered peer 0 produces the effect `disconnect 0`. -/
theorem unknown_peer_drop_cex :
    ¬ (∀ (maxInv : Nat) (cfg : Config) (env : Env) (sm : SyncManager)
         (p : PeerId) (h : Hash),
        List.lookup p sm.peerStates = none →
        (handleEvent maxInv cfg env sm (Event.block p h)).2 = []) := by
  intro hcl
  have := hcl 10 cfgOne envZero initialState 0 5 (by decide)
  exact absurd this (by decide)

/-- Witness for the amended claim C2 at the initial manager state and
peer 0. -/
theorem unknown_peer_drop_witness :
    handleEvent 10 cfgOne envZero initialState (Event.inv 0 []) = (initialState, []) ∧
    handleEvent 10 cfgOne envZero initialState (Event.tx 0 5) = (initialState, []) ∧
    (handleEvent 10 cfgOne envZero initialState (Event.block 0 5)).1 = initialState ∧
    ((initialState.syncPeer = some 0 ∨
        currentAt initialState.syncPeer envZero.heights envZero.bestHeight = true) →
      (handleEvent 10 cfgOne envZero initialState (Event.block 0 5)).2 = [Effect.disconnect 0]) ∧
    (initialState.syncPeer ≠ some 0 →
      currentAt initialState.syncPeer envZero.heights envZero.bestHeight = false →
      (handleEvent 10 cfgOne envZero initialState (Event.block 0 5)).2 = []) :=
  unknown_peer_drop 10 cfgOne envZero initialState 0 5 [] (by decide)

/-! ### Unrequested blocks (claim C5) -/

/-- Claim C5, amended.  Provided the Block event passes the entry gate
(the sender is the sync peer, or the manager is current), a block whose
hash is not in the sending peer's `requestedBlocks` makes the manager
call `Disconnect` on that peer and return with the state unchanged and
without calling `CommitBlock`.  (Without the gate hypothesis the claim
fails: a block from a known non-sync peer while not current is dropped
with no disconnect at all.) -/
theorem unrequested_block_disconnect (maxInv : Nat) (cfg : Config)
    (env : Env) (sm : SyncManager) (p : PeerId) (h : Hash)
    (st : peerSyncState)
    (hgate : sm.syncPeer = some p ∨ currentAt sm.syncPeer env.heights env.bestHeight = true)
    (hst : List.lookup p sm.peerStates = some st)
    (hh : h ∉ st.requestedBlocks) :
    handleEvent maxInv cfg env sm (Event.block p h) = (sm, [Effect.disconnect p]) ∧
    Effect.commitBlock h ∉ (handleEvent maxInv cfg env sm (Event.block p h)).2 := by
  have hmain : handleEvent maxInv cfg env sm (Event.block p h) = (sm, [Effect.disconnect p]) := by
    simp only [handleEvent, handleBlockMsg, hst]
    rw [if_neg, if_pos hh]
    rintro ⟨hne, hcur⟩
    rcases hgate with hg | hg
    · exact hne hg
    · rw [hg] at hcur
      cases hcur
  refine ⟨hmain, ?_⟩
  rw [hmain]
  simp

/-- Claim C5, counterexample.  The claim is not gated on the acceptance
check at the top of `handleBlockMsg`: in the reachable state `mgrB2`
(peer 1 is the sync peer at height 10, chain at height 0, so the manager
is not current), a block with the unrequested hash 5 from the known
non-sync peer 0 is dropped without any `Disconnect` call. -/
theorem unrequested_block_disconnect_cex :
    ¬ (∀ (maxInv : Nat) (cfg : Config) (env : Env) (sm : SyncManager)
         (p : PeerId) (h : Hash) (st : peerSyncState),
        Reachable maxInv cfg sm →
        List.lookup p sm.peerStates = some st →
        h ∉ st.requestedBlocks →
        Effect.disconnect p ∈ (handleEvent maxInv cfg env sm (Event.block p h)).2) := by
  intro hcl
  have hreach : Reachable 10 cfgOne mgrB2 := by
    have h1 : Step 10 cfgOne initialState mgrB1 :=
      ⟨Event.newPeer 1 ⟨true, true⟩, envZero, by decide⟩
    have h2 : Step 10 cfgOne mgrB1 mgrB2 :=
      ⟨Event.newPeer 0 ⟨false, false⟩, envZero, by decide⟩
    exact Relation.ReflTransGen.tail (Relation.ReflTransGen.tail Relation.ReflTransGen.refl h1) h2
  have := hcl 10 cfgOne envTen mgrB2 0 5 (freshPeerState false) hreach (by decide) (by decide)
  exact absurd this (by decide)

/-- Witness for the amended claim C5: at `mgrK` (known peer 0, no sync
peer, hence current) a block with the unrequested hash 5 yields exactly
a `Disconnect` of peer 0, no commit and no state change. -/
theorem unrequested_block_disconnect_witness :
    handleEvent 10 cfgOne envZero mgrK (Event.block 0 5) = (mgrK, [Effect.disconnect 0]) ∧
    Effect.commitBlock 5 ∉ (handleEvent 10 cfgOne envZero mgrK (Event.block 0 5)).2 :=
  unrequested_block_disconnect 10 cfgOne envZero mgrK 0 5 (freshPeerState true)
    (Or.inr rfl) (by decide) (by decide)

/-! ### Missing receivedTxs increment (claim C3) -/

/-- Claim C3 concerns a code bug: the specification requires
`received_txs` to be incremented when a requested transaction is
received, but no path of `handleTxMsg` touches the counter.  This
theorem evaluates the code: after a Tx event from a known peer whose
hash passed the provenance check, the peer's `receivedTxs` is exactly
what it was before. -/
theorem handleTxMsg_receivedTxs_unchanged (env : Env) (sm : SyncManager)
    (p : PeerId) (h : Hash) (st : peerSyncState)
    (hst : List.lookup p sm.peerStates = some st)
    (hh : h ∈ st.requestedTxns) :
    ∃ st', List.lookup p (handleTxMsg env sm p h).1.peerStates = some st' ∧
      st'.receivedTxs = st.receivedTxs := by
  simp only [handleTxMsg, hst]
  rw [if_neg (not_not_intro hh)]
  by_cases hfp : env.commitTxFp
  · rw [if_pos hfp]
    split
    · exact ⟨_, lookup_setPeer_self _ _ _, rfl⟩
    · exact ⟨_, lookup_setPeer_self _ _ _, rfl⟩
  · rw [if_neg hfp]
    exact ⟨_, lookup_setPeer_self _ _ _, rfl⟩

/-- Witness for the claim C3 evaluation at the concrete state `mgrT2`:
peer 0 has transaction 5 in flight, receives it, and `receivedTxs`
stays 0. -/
theorem handleTxMsg_receivedTxs_unchanged_witness :
    ∃ st', List.lookup 0 (handleTxMsg envFp mgrT2 0 5).1.peerStates = some st' ∧
      st'.receivedTxs = ({ freshPeerState false with requestedTxns := {5} } : peerSyncState).receivedTxs :=
  handleTxMsg_receivedTxs_unchanged envFp mgrT2 0 5
    { freshPeerState false with requestedTxns := {5} } (by decide) (by decide)

/-! ### Bad-block scoring on orphans while not current (claim C6) -/

/-- Claim C6.  When a requested block from a known peer (past the entry
gate) commits as an orphan while the manager is not current, the peer's
`receivedBlocks` was already incremented (source line 389) and its
`badBlocks` is incremented; the peer is disconnected exactly when
`badBlocks/receivedBlocks > 0.001` on the updated counters.  In the
concrete scenarios of the claim: one orphan after 1000 successful
commits gives rate 1/1001 and no disconnect, one orphan after 10 gives
1/11 and a disconnect. -/
theorem orphan_not_current_bad_block_scoring (maxInv : Nat) (cfg : Config)
    (env : Env) (sm : SyncManager) (p : PeerId) (bh : Hash)
    (st : peerSyncState)
    (hgate : sm.syncPeer = some p ∨ currentAt sm.syncPeer env.heights env.bestHeight = true)
    (hst : List.lookup p sm.peerStates = some st)
    (hreq : bh ∈ st.requestedBlocks)
    (herr : env.commit.err = some ChainErr.orphanBlock)
    (hcur : currentAt sm.syncPeer env.heights env.bestHeightPost = false) :
    ∃ st', List.lookup p (handleEvent maxInv cfg env sm (Event.block p bh)).1.peerStates = some st' ∧
      st'.badBlocks = u32succ st.badBlocks ∧
      st'.receivedBlocks = u32succ st.receivedBlocks ∧
      (Effect.disconnect p ∈ (handleEvent maxInv cfg env sm (Event.block p bh)).2 ↔
        rateGtMax (u32succ st.badBlocks) (u32succ st.receivedBlocks) = true) ∧
      rateGtMax 1 1001 = false ∧ rateGtMax 1 11 = true := by
  simp only [handleEvent, handleBlockMsg, hst]
  rw [if_neg, if_neg (not_not_intro hreq)]
  · rw [if_neg (fun hc => by rw [hcur] at hc; cases hc.2), if_pos ⟨herr, hcur⟩]
    split
    next hrate =>
      refine ⟨_, lookup_setPeer_self _ _ _, rfl, rfl, ?_, by decide, by decide⟩
      simpa using hrate
    next hrate =>
      refine ⟨_, lookup_setPeer_self _ _ _, rfl, rfl, ?_, by decide, by decide⟩
      constructor
      · intro hmem
        simp at hmem
      · intro hr
        exact absurd hr (by simpa using hrate)
  · rintro ⟨hne, hcurpre⟩
    rcases hgate with hg | hg
    · exact hne hg
    · rw [hg] at hcurpre
      cases hcurpre

/-- Witness for claim C6 at the concrete state `mgrD`: sync peer 7 with
1000 received blocks and block 5 in flight delivers an orphan while not
current; the rate becomes 1/1001 and the disconnect biconditional,
together with the two concrete rate facts, is produced by the theorem. -/
theorem orphan_not_current_bad_block_scoring_witness :
    ∃ st', List.lookup 7 (handleEvent 10 cfgOne envOrphan mgrD (Event.block 7 5)).1.peerStates = some st' ∧
      st'.badBlocks = u32succ 0 ∧
      st'.receivedBlocks = u32succ 1000 ∧
      (Effect.disconnect 7 ∈ (handleEvent 10 cfgOne envOrphan mgrD (Event.block 7 5)).2 ↔
        rateGtMax (u32succ 0) (u32succ 1000) = true) ∧
      rateGtMax 1 1001 = false ∧ rateGtMax 1 11 = true :=
  orphan_not_current_bad_block_scoring 10 cfgOne envOrphan mgrD 7 5
    { freshPeerState true with requestedBlocks := {5}, receivedBlocks := 1000 }
    (Or.inl rfl) (by decide) (by decide) rfl (by decide)

/-! ### Request-pump effect lemmas -/

theorem pumpItem_gdmsg (maxInv : Nat) (choice : Finset Hash → Hash)
    (iv : InvVect) (ps : PumpState)
    (h : ∀ jv ∈ ps.gdmsg, jv.type = InvType.filteredBlock ∨ jv.type = InvType.tx) :
    ∀ jv ∈ (pumpItem maxInv choice iv ps).gdmsg,
      jv.type = InvType.filteredBlock ∨ jv.type = InvType.tx := by
  rcases iv with ⟨t, a⟩
  cases t with
  | block => exact h
  | other => exact h
  | filteredBlock =>
    simp only [pumpItem]
    split
    · exact h
    · intro jv hjv
      simp only [List.mem_append, List.mem_singleton] at hjv
      rcases hjv with hjv | rfl
      · exact h jv hjv
      · exact Or.inl rfl
  | tx =>
    simp only [pumpItem]
    split
    · exact h
    · intro jv hjv
      simp only [List.mem_append, List.mem_singleton] at hjv
      rcases hjv with hjv | rfl
      · exact h jv hjv
      · exact Or.inr rfl

theorem pushGetDataLoop_gdmsg (maxInv : Nat) (choice : Finset Hash → Hash) :
    ∀ (q : List InvVect) (ps : PumpState),
      (∀ jv ∈ ps.gdmsg, jv.type = InvType.filteredBlock ∨ jv.type = InvType.tx) →
      ∀ jv ∈ (pushGetDataLoop maxInv choice q ps).2.gdmsg,
        jv.type = InvType.filteredBlock ∨ jv.type = InvType.tx := by
  intro q
  induction q with
  | nil => intro ps h; exact h
  | cons iv rest ih =>
    intro ps h
    simp only [pushGetDataLoop]
    split
    · exact pumpItem_gdmsg maxInv choice iv ps h
    · exact ih _ (pumpItem_gdmsg maxInv choice iv ps h)

theorem pushGetDataMsg_getdata_types (maxInv : Nat)
    (choice : Finset Hash → Hash) (p : PeerId) (sm : SyncManager)
    (st : peerSyncState) (q : PeerId) (l : List InvVect)
    (hmem : Effect.queueGetData q l ∈ (pushGetDataMsg maxInv choice p sm st).2) :
    ∀ iv ∈ l, iv.type = InvType.filteredBlock ∨ iv.type = InvType.tx := by
  simp only [pushGetDataMsg] at hmem
  split at hmem
  · simp at hmem
  · simp only [List.mem_singleton] at hmem
    injection hmem with h1 h2
    subst h2
    exact pushGetDataLoop_gdmsg maxInv choice st.requestQueue _
      (fun jv hjv => absurd hjv (List.not_mem_nil jv))

theorem startSync_effects (cfg : Config) (env : Env) (sm : SyncManager) :
    (startSync cfg env sm).2 = [] ∨
    ∃ p, (startSync cfg env sm).2 = [Effect.pushGetBlocks p] := by
  simp only [startSync, syncWith]
  split
  · exact Or.inl rfl
  · split
    · exact Or.inl rfl
    · split
      · exact Or.inr ⟨_, rfl⟩
      · exact Or.inl rfl

theorem handleNewPeerMsg_no_getdata (cfg : Config) (env : Env)
    (sm : SyncManager) (p : PeerId) (sv : ServiceFlags) (q : PeerId)
    (l : List InvVect) :
    Effect.queueGetData q l ∉ (handleNewPeerMsg cfg env sm p sv).2 := by
  simp only [handleNewPeerMsg]
  split
  · rcases startSync_effects cfg env _ with h | ⟨r, h⟩ <;> rw [h] <;> simp
  · simp

theorem handleDonePeerMsg_no_getdata (cfg : Config) (env : Env)
    (sm : SyncManager) (p : PeerId) (q : PeerId) (l : List InvVect) :
    Effect.queueGetData q l ∉ (handleDonePeerMsg cfg env sm p).2 := by
  simp only [handleDonePeerMsg]
  split
  · simp
  · split
    · rcases startSync_effects cfg env _ with h | ⟨r, h⟩ <;> rw [h] <;> simp
    · simp

theorem handleTxMsg_no_getdata (env : Env) (sm : SyncManager) (p : PeerId)
    (h : Hash) (q : PeerId) (l : List InvVect) :
    Effect.queueGetData q l ∉ (handleTxMsg env sm p h).2 := by
  simp only [handleTxMsg]
  repeat' split
  all_goals simp

theorem handleBloomDone_no_getdata (sm : SyncManager) (p : PeerId)
    (q : PeerId) (l : List InvVect) :
    Effect.queueGetData q l ∉ (handleBloomDone sm p).2 := by
  simp only [handleBloomDone]
  split <;> simp

theorem handleBlockMsg_getdata (maxInv : Nat) (env : Env)
    (sm : SyncManager) (p : PeerId) (bh : Hash) (q : PeerId)
    (l : List InvVect)
    (hmem : Effect.queueGetData q l ∈ (handleBlockMsg maxInv env sm p bh).2) :
    ∀ iv ∈ l, iv.type = InvType.filteredBlock ∨ iv.type = InvType.tx := by
  unfold handleBlockMsg at hmem
  repeat' (first | split at hmem | simp only [] at hmem)
  all_goals try simp [syncWith] at hmem
  all_goals exact pushGetDataMsg_getdata_types _ _ _ _ _ _ _ hmem

theorem handleInvMsg_getdata (maxInv : Nat) (env : Env) (sm : SyncManager)
    (p : PeerId) (il : List InvVect) (q : PeerId) (l : List InvVect)
    (hmem : Effect.queueGetData q l ∈ (handleInvMsg maxInv env sm p il).2) :
    ∀ iv ∈ l, iv.type = InvType.filteredBlock ∨ iv.type = InvType.tx := by
  simp only [handleInvMsg] at hmem
  split at hmem
  · simp at hmem
  · split at hmem
    · simp at hmem
    · exact pushGetDataMsg_getdata_types _ _ _ _ _ _ _ hmem

/-- Claim C8.  First part: across every event a handler can process, any
outbound GetData message contains only filtered-block and transaction
vectors, never a vector of kind Block.  Second part: a Block vector that
survives the inventory filter (the chain does not have it) is rewritten
in place to a FilteredBlock vector with the same hash before it is
queued for request. -/
theorem getdata_never_block_kind :
    (∀ (maxInv : Nat) (cfg : Config) (env : Env) (sm : SyncManager)
       (ev : Event) (q : PeerId) (l : List InvVect),
      Effect.queueGetData q l ∈ (handleEvent maxInv cfg env sm ev).2 →
      ∀ iv ∈ l, iv.type ≠ InvType.block) ∧
    (∀ (env : Env) (mp : Finset Hash) (h : Hash),
      env.haveBlock h = false →
      invFilter env mp ⟨InvType.block, h⟩ = some ⟨InvType.filteredBlock, h⟩) := by
  constructor
  · intro maxInv cfg env sm ev q l hmem iv hiv
    have htypes : iv.type = InvType.filteredBlock ∨ iv.type = InvType.tx := by
      cases ev with
      | newPeer p sv => exact absurd hmem (handleNewPeerMsg_no_getdata cfg env sm p sv q l)
      | donePeer p => exact absurd hmem (handleDonePeerMsg_no_getdata cfg env sm p q l)
      | inv p il => exact handleInvMsg_getdata maxInv env sm p il q l hmem iv hiv
      | block p bh => exact handleBlockMsg_getdata maxInv env sm p bh q l hmem iv hiv
      | tx p th => exact absurd hmem (handleTxMsg_no_getdata env sm p th q l)
      | bloomDone p => exact absurd hmem (handleBloomDone_no_getdata sm p q l)
    rcases htypes with h | h <;> rw [h] <;> intro hc <;> cases hc
  · intro env mp h hb
    simp [invFilter, hb]

/-- Witness for claim C8 at the concrete inv event of the C1 trace: the
GetData produced for peer 0 carries the single vector
`(FilteredBlock, 5)`, and the theorem yields that no vector in it has
kind Block. -/
theorem getdata_never_block_kind_witness :
    ∀ iv ∈ [InvVect.mk InvType.filteredBlock 5], iv.type ≠ InvType.block :=
  getdata_never_block_kind.1 10 cfgOne envZero mgrA1
    (Event.inv 0 [⟨InvType.block, 5⟩]) 0 [⟨InvType.filteredBlock, 5⟩]
    (by decide)

/-! ### Per-peer versus global in-flight sets (claim C1) -/

theorem pushGetDataLoop_containment (maxInv : Nat)
    (choice : Finset Hash → Hash) :
    ∀ (q : List InvVect) (ps : PumpState),
      ps.peerBlocks ⊆ ps.globalBlocks → ps.peerTxns ⊆ ps.globalTxns →
      ps.globalBlocks.card + q.length < maxInv →
      ps.globalTxns.card + q.length < maxInv →
      (pushGetDataLoop maxInv choice q ps).2.peerBlocks ⊆
        (pushGetDataLoop maxInv choice q ps).2.globalBlocks ∧
      (pushGetDataLoop maxInv choice q ps).2.peerTxns ⊆
        (pushGetDataLoop maxInv choice q ps).2.globalTxns := by
  intro q
  induction q with
  | nil => intro ps hB hT _ _; exact ⟨hB, hT⟩
  | cons iv rest ih =>
    intro ps hB hT hcB hcT
    have hitem :
        (pumpItem maxInv choice iv ps).peerBlocks ⊆ (pumpItem maxInv choice iv ps).globalBlocks ∧
        (pumpItem maxInv choice iv ps).peerTxns ⊆ (pumpItem maxInv choice iv ps).globalTxns ∧
        (pumpItem maxInv choice iv ps).globalBlocks.card ≤ ps.globalBlocks.card + 1 ∧
        (pumpItem maxInv choice iv ps).globalTxns.card ≤ ps.globalTxns.card + 1 := by
      rcases iv with ⟨t, a⟩
      cases t with
      | block => exact ⟨hB, hT, Nat.le_succ _, Nat.le_succ _⟩
      | other => exact ⟨hB, hT, Nat.le_succ _, Nat.le_succ _⟩
      | filteredBlock =>
        simp only [pumpItem]
        split
        · exact ⟨hB, hT, Nat.le_succ _, Nat.le_succ _⟩
        next hnot =>
          have hins : (insert a ps.globalBlocks).card = ps.globalBlocks.card + 1 :=
            Finset.card_insert_of_not_mem hnot
          have hlim : limitMap choice (insert a ps.globalBlocks) maxInv =
              insert a ps.globalBlocks := by
            unfold limitMap
            rw [if_neg]
            simp only [List.length_cons] at hcB
            omega
          refine ⟨?_, hT, ?_, Nat.le_succ _⟩
          · simpa [hlim] using Finset.insert_subset_insert a hB
          · simp [hlim, hins]
      | tx =>
        simp only [pumpItem]
        split
        · exact ⟨hB, hT, Nat.le_succ _, Nat.le_succ _⟩
        next hnot =>
          have hins : (insert a ps.globalTxns).card = ps.globalTxns.card + 1 :=
            Finset.card_insert_of_not_mem hnot
          have hlim : limitMap choice (insert a ps.globalTxns) maxInv =
              insert a ps.globalTxns := by
            unfold limitMap
            rw [if_neg]
            simp only [List.length_cons] at hcT
            omega
          refine ⟨hB, ?_, Nat.le_succ _, ?_⟩
          · simpa [hlim] using Finset.insert_subset_insert a hT
          · simp [hlim, hins]
    simp only [pushGetDataLoop]
    split
    · exact ⟨hitem.1, hitem.2.1⟩
    · refine ih _ hitem.1 hitem.2.1 ?_ ?_
      · have := hitem.2.2.1
        simp only [List.length_cons] at hcB
        omega
      · have := hitem.2.2.2
        simp only [List.length_cons] at hcT
        omega

/-- Claim C1, amended.  The containment of every peer's in-flight sets
in the global ones is not an invariant of all reachable states: it is
broken when `syncWith` clears the global `requestedBlocks` while a peer
other than the new sync peer still has outstanding requests (see the
counterexample), and when `limitMap` evicts an entry owned by a peer.
What does hold is that the Request Pump — the only place a hash enters a
peer's set — inserts the hash into the global set at the same time, and
therefore preserves the containment across a run in which its insertions
stay strictly below the capacity limit, so that `limitMap` evicts
nothing. -/
theorem pushGetDataMsg_preserves_containment (maxInv : Nat)
    (choice : Finset Hash → Hash) (p : PeerId) (sm : SyncManager)
    (st : peerSyncState)
    (hB : st.requestedBlocks ⊆ sm.requestedBlocks)
    (hT : st.requestedTxns ⊆ sm.requestedTxns)
    (hcB : sm.requestedBlocks.card + st.requestQueue.length < maxInv)
    (hcT : sm.requestedTxns.card + st.requestQueue.length < maxInv) :
    ∃ st', List.lookup p (pushGetDataMsg maxInv choice p sm st).1.peerStates = some st' ∧
      st'.requestedBlocks ⊆ (pushGetDataMsg maxInv choice p sm st).1.requestedBlocks ∧
      st'.requestedTxns ⊆ (pushGetDataMsg maxInv choice p sm st).1.requestedTxns := by
  have h := pushGetDataLoop_containment maxInv choice st.requestQueue
    { gdmsg := []
      numRequested := 0
      globalBlocks := sm.requestedBlocks
      globalTxns := sm.requestedTxns
      peerBlocks := st.requestedBlocks
      peerTxns := st.requestedTxns } hB hT hcB hcT
  exact ⟨_, lookup_setPeer_self _ _ _, h.1, h.2⟩

/-- Claim C1, counterexample.  Reachable in three events: non-candidate
peer 0 joins, advertises block 5 (which the manager requests, putting 5
into peer 0's and the global block sets), then candidate peer 1 joins
and `startSync` runs `syncWith`, which resets the global
`requestedBlocks` to empty; hash 5 is still in peer 0's set but no
longer in the global set, so the claimed containment fails — and in
particular it does not hold "immediately after syncWith". -/
theorem peer_subset_global_cex :
    ¬ (∀ (maxInv : Nat) (cfg : Config) (sm : SyncManager),
        Reachable maxInv cfg sm →
        ∀ (p : PeerId) (st : peerSyncState),
          List.lookup p sm.peerStates = some st →
          st.requestedBlocks ⊆ sm.requestedBlocks ∧
          st.requestedTxns ⊆ sm.requestedTxns) := by
  intro hcl
  have hreach : Reachable 10 cfgOne mgrA3 := by
    have h1 : Step 10 cfgOne initialState mgrA1 :=
      ⟨Event.newPeer 0 ⟨false, false⟩, envZero, by decide⟩
    have h2 : Step 10 cfgOne mgrA1 mgrA2 :=
      ⟨Event.inv 0 [⟨InvType.block, 5⟩], envZero, by decide⟩
    have h3 : Step 10 cfgOne mgrA2 mgrA3 :=
      ⟨Event.newPeer 1 ⟨true, true⟩, envZero, by decide⟩
    exact Relation.ReflTransGen.tail
      (Relation.ReflTransGen.tail
        (Relation.ReflTransGen.tail Relation.ReflTransGen.refl h1) h2) h3
  have hsub := (hcl 10 cfgOne mgrA3 hreach 0
    { freshPeerState false with requestedBlocks := {5} } (by decide)).1
  have h5 : (5 : Hash) ∈ mgrA3.requestedBlocks := hsub (by decide)
  exact absurd h5 (by decide)

/-- Witness for the amended claim C1: the pump run of the C1 trace's inv
event, executed at `mgrA1` with empty sets and the queue holding the
rewritten vector `(FilteredBlock, 5)`, keeps peer 0's sets inside the
global ones. -/
theorem pushGetDataMsg_preserves_containment_witness :
    ∃ st', List.lookup 0 (pushGetDataMsg 10 minChoice 0 mgrA1
        { freshPeerState false with requestQueue := [⟨InvType.filteredBlock, 5⟩] }).1.peerStates = some st' ∧
      st'.requestedBlocks ⊆ (pushGetDataMsg 10 minChoice 0 mgrA1
        { freshPeerState false with requestQueue := [⟨InvType.filteredBlock, 5⟩] }).1.requestedBlocks ∧
      st'.requestedTxns ⊆ (pushGetDataMsg 10 minChoice 0 mgrA1
        { freshPeerState false with requestQueue := [⟨InvType.filteredBlock, 5⟩] }).1.requestedTxns :=
  pushGetDataMsg_preserves_containment 10 minChoice 0 mgrA1
    { freshPeerState false with requestQueue := [⟨InvType.filteredBlock, 5⟩] }
    (by decide) (by decide) (by decide) (by decide)

/-! ### Candidate counting in startSync (claim C10) -/

/-- Claim C10.  The `MinPeersForSync` shortcut counts the candidates at
entry, before the same invocation demotes stale ones.  Concretely: under
`cfgTwo` (two candidates required), from the reachable state `mgrC10`
(candidate peer 0, stored flag true), the arrival of candidate peer 1
with the chain at height 1 and peer 0 at height 0 counts two candidates
at entry, then demotes peer 0 and sends a GetBlocks message to peer 1 —
even though the candidates still eligible afterwards number 1, which is
below `minPeersForSync`. -/
theorem startSync_overcount_getblocks :
    Reachable 10 cfgTwo mgrC10 ∧
    (getSyncCandidates
      { mgrC10 with peerStates := setPeer mgrC10.peerStates 1 (freshPeerState true) }).length = 2 ∧
    Effect.pushGetBlocks 1 ∈
      (handleEvent 10 cfgTwo envRamp mgrC10 (Event.newPeer 1 ⟨true, true⟩)).2 ∧
    (getSyncCandidates
      (handleEvent 10 cfgTwo envRamp mgrC10 (Event.newPeer 1 ⟨true, true⟩)).1).length <
      cfgTwo.minPeersForSync := by
  refine ⟨?_, by decide, by decide, by decide⟩
  exact Relation.ReflTransGen.tail Relation.ReflTransGen.refl
    ⟨Event.newPeer 0 ⟨true, true⟩, envZero, by decide⟩

/-! ### Capacity of the global in-flight sets (claim C7) -/

theorem pushGetDataLoop_card (maxInv : Nat) (choice : Finset Hash → Hash)
    (hvalid : ∀ s : Finset Hash, s.Nonempty → choice s ∈ s) :
    ∀ (q : List InvVect) (ps : PumpState),
      ps.globalBlocks.card ≤ maxInv → ps.globalTxns.card ≤ maxInv →
      (pushGetDataLoop maxInv choice q ps).2.globalBlocks.card ≤ maxInv ∧
      (pushGetDataLoop maxInv choice q ps).2.globalTxns.card ≤ maxInv := by
  intro q
  induction q with
  | nil => intro ps hB hT; exact ⟨hB, hT⟩
  | cons iv rest ih =>
    intro ps hB hT
    have hitem : (pumpItem maxInv choice iv ps).globalBlocks.card ≤ maxInv ∧
        (pumpItem maxInv choice iv ps).globalTxns.card ≤ maxInv := by
      rcases iv with ⟨t, a⟩
      cases t with
      | block => exact ⟨hB, hT⟩
      | other => exact ⟨hB, hT⟩
      | filteredBlock =>
        simp only [pumpItem]
        split
        · exact ⟨hB, hT⟩
        · exact ⟨limitMap_card_le hvalid _ _ _ hB, hT⟩
      | tx =>
        simp only [pumpItem]
        split
        · exact ⟨hB, hT⟩
        · exact ⟨hB, limitMap_card_le hvalid _ _ _ hT⟩
    simp only [pushGetDataLoop]
    split
    · exact hitem
    · exact ih _ hitem.1 hitem.2

theorem bounded_pushGetDataMsg (maxInv : Nat) (choice : Finset Hash → Hash)
    (hvalid : ∀ s : Finset Hash, s.Nonempty → choice s ∈ s)
    (p : PeerId) (sm : SyncManager) (st : peerSyncState)
    (h : Bounded maxInv sm) :
    Bounded maxInv (pushGetDataMsg maxInv choice p sm st).1 := by
  have hl := pushGetDataLoop_card maxInv choice hvalid st.requestQueue
    { gdmsg := []
      numRequested := 0
      globalBlocks := sm.requestedBlocks
      globalTxns := sm.requestedTxns
      peerBlocks := st.requestedBlocks
      peerTxns := st.requestedTxns } h.1 h.2
  exact ⟨hl.1, hl.2⟩

theorem bounded_startSync (maxInv : Nat) (cfg : Config) (env : Env)
    (sm : SyncManager) (h : Bounded maxInv sm) :
    Bounded maxInv (startSync cfg env sm).1 := by
  simp only [startSync, syncWith]
  split
  · exact h
  · split
    · exact h
    · split
      · exact ⟨by simp, h.2⟩
      · exact h

theorem bounded_syncWith (maxInv : Nat) (sm : SyncManager) (p : PeerId)
    (hT : sm.requestedTxns.card ≤ maxInv) :
    Bounded maxInv (syncWith sm p).1 :=
  ⟨by simp [syncWith], hT⟩

theorem bounded_handleEvent (maxInv : Nat) (cfg : Config) (env : Env)
    (sm : SyncManager) (ev : Event) (h : Bounded maxInv sm) :
    Bounded maxInv (handleEvent maxInv cfg env sm ev).1 := by
  cases ev with
  | newPeer p sv =>
    simp only [handleEvent, handleNewPeerMsg]
    split
    · exact bounded_startSync maxInv cfg env _ h
    · exact h
  | donePeer p =>
    simp only [handleEvent, handleDonePeerMsg]
    split
    · exact h
    next st heq =>
      have hs : Bounded maxInv
          { sm with
            peerStates := removePeer sm.peerStates p
            requestedTxns := sm.requestedTxns \ st.requestedTxns
            requestedBlocks := sm.requestedBlocks \ st.requestedBlocks } :=
        ⟨le_trans (Finset.card_le_card Finset.sdiff_subset) h.1,
         le_trans (Finset.card_le_card Finset.sdiff_subset) h.2⟩
      split
      · exact bounded_startSync maxInv cfg env _ hs
      · exact hs
  | inv p il =>
    simp only [handleEvent, handleInvMsg]
    split
    · exact h
    · split
      · exact h
      · exact bounded_pushGetDataMsg maxInv env.choice env.choiceValid _ _ _ h
  | block p bh =>
    simp only [handleEvent]
    unfold handleBlockMsg
    repeat' (first | split | simp only [])
    all_goals
      first
      | exact h
      | exact bounded_syncWith maxInv _ _ h.2
      | (refine ⟨?_, ?_⟩ <;>
          first
          | exact h.1
          | exact h.2
          | exact le_trans Finset.card_erase_le h.1
          | exact le_trans Finset.card_erase_le h.2
          | simp)
      | (refine bounded_pushGetDataMsg maxInv env.choice env.choiceValid _ _ _ ⟨?_, ?_⟩ <;>
          first
          | exact h.1
          | exact h.2
          | exact le_trans Finset.card_erase_le h.1
          | exact le_trans Finset.card_erase_le h.2
          | simp)
  | tx p th =>
    simp only [handleEvent]
    unfold handleTxMsg
    repeat' (first | split | simp only [])
    all_goals
      first
      | exact h
      | exact ⟨h.1, le_trans Finset.card_erase_le h.2⟩
  | bloomDone p =>
    simp only [handleEvent]
    unfold handleBloomDone
    repeat' (first | split | simp only [])
    all_goals exact h

/-- Claim C7.  In every reachable manager state the global
`requestedBlocks` set holds at most `maxRequestedBlocks` hashes and the
global `requestedTxns` set at most `maxRequestedTxns` (both limits are
`msg.MaxInvPerMsg`, the parameter `maxInv`): every insertion in the
Request Pump is followed by `limitMap` on the same set, and all other
updates only erase or reset the sets. -/
theorem global_inflight_bounded (maxInv : Nat) (cfg : Config)
    (sm : SyncManager) (hr : Reachable maxInv cfg sm) :
    sm.requestedBlocks.card ≤ maxInv ∧ sm.requestedTxns.card ≤ maxInv := by
  induction hr with
  | refl => exact ⟨by simp [initialState], by simp [initialState]⟩
  | tail hsteps hstep ih =>
    obtain ⟨ev, env, heq⟩ := hstep
    rw [← heq]
    exact bounded_handleEvent maxInv cfg env _ ev ih

/-- Witness for claim C7 at the initial state with the real-world limit
value 500 used as `maxInv`. -/
theorem global_inflight_bounded_witness :
    initialState.requestedBlocks.card ≤ 500 ∧
    initialState.requestedTxns.card ≤ 500 :=
  global_inflight_bounded 500 cfgOne initialState Relation.ReflTransGen.refl

/-! ### The receivedTxs counter is never incremented (claim C9) -/

theorem mem_setPeer_snd {l : List (PeerId × peerSyncState)} {p : PeerId}
    {st : peerSyncState} {e : PeerId × peerSyncState}
    (h : e ∈ setPeer l p st) : e.2 = st ∨ e ∈ l := by
  rcases e with ⟨q, stq⟩
  exact mem_setPeer h

theorem rxzero_setPeer {l : List (PeerId × peerSyncState)} {p : PeerId}
    {st : peerSyncState} (h : ∀ e ∈ l, e.2.receivedTxs = 0)
    (hst : st.receivedTxs = 0) :
    ∀ e ∈ setPeer l p st, e.2.receivedTxs = 0 := by
  intro e he
  rcases mem_setPeer_snd he with heq | hmem
  · rw [heq]
    exact hst
  · exact h _ hmem

theorem rxzero_startSyncLoop (hs : PeerId → Nat) (bh : Nat) :
    ∀ (l : List (PeerId × peerSyncState)) (best : Option PeerId),
      (∀ e ∈ l, e.2.receivedTxs = 0) →
      ∀ e ∈ (startSyncLoop hs bh l best).1, e.2.receivedTxs = 0 := by
  intro l
  induction l with
  | nil =>
    intro best h e he
    simp only [startSyncLoop] at he
    cases he
  | cons hd tl ih =>
    intro best h
    rcases hd with ⟨p, st⟩
    have hhd : st.receivedTxs = 0 := h _ (List.mem_cons_self _ _)
    have htl : ∀ e ∈ tl, e.2.receivedTxs = 0 :=
      fun e he => h _ (List.mem_cons_of_mem _ he)
    simp only [startSyncLoop]
    split
    · intro e he
      rcases List.mem_cons.mp he with rfl | hmem
      · exact hhd
      · exact ih _ htl _ hmem
    · split
      · intro e he
        rcases List.mem_cons.mp he with rfl | hmem
        · exact hhd
        · exact ih _ htl _ hmem
      · intro e he
        rcases List.mem_cons.mp he with rfl | hmem
        · exact hhd
        · exact ih _ htl _ hmem

theorem rxzero_startSync (cfg : Config) (env : Env) (sm : SyncManager)
    (h : RxZero sm) : RxZero (startSync cfg env sm).1 := by
  simp only [startSync, syncWith]
  split
  · exact h
  · split
    · exact h
    · split
      · intro e he
        exact rxzero_startSyncLoop env.heights env.bestHeight sm.peerStates none h e he
      · intro e he
        exact rxzero_startSyncLoop env.heights env.bestHeight sm.peerStates none h e he

theorem rxzero_pushGetDataMsg (maxInv : Nat) (choice : Finset Hash → Hash)
    (p : PeerId) (sm : SyncManager) (st : peerSyncState)
    (h : RxZero sm) (hst : st.receivedTxs = 0) :
    RxZero (pushGetDataMsg maxInv choice p sm st).1 := by
  intro e he
  simp only [pushGetDataMsg] at he
  refine rxzero_setPeer h ?_ e he
  exact hst

theorem rxzero_handleEvent (maxInv : Nat) (cfg : Config) (env : Env)
    (sm : SyncManager) (ev : Event) (h : RxZero sm) :
    RxZero (handleEvent maxInv cfg env sm ev).1 := by
  cases ev with
  | newPeer p sv =>
    simp only [handleEvent, handleNewPeerMsg]
    split
    · exact rxzero_startSync cfg env _ (rxzero_setPeer h rfl)
    · exact rxzero_setPeer h rfl
  | donePeer p =>
    simp only [handleEvent, handleDonePeerMsg]
    split
    · exact h
    · split
      · exact rxzero_startSync cfg env _ (fun e he => h _ (mem_removePeer he))
      · exact fun e he => h _ (mem_removePeer he)
  | inv p il =>
    simp only [handleEvent, handleInvMsg]
    split
    · exact h
    next st heq =>
      have hst0 : st.receivedTxs = 0 := h _ (lookup_mem heq)
      split
      · exact h
      · exact rxzero_pushGetDataMsg maxInv env.choice p _ _
          (rxzero_setPeer h hst0) hst0
  | block p bh =>
    simp only [handleEvent]
    unfold handleBlockMsg
    split
    · exact h
    · split
      · exact h
      next st heq =>
        have hst0 : st.receivedTxs = 0 := h _ (lookup_mem heq)
        split
        · exact h
        · repeat' (first | split | simp only [])
          all_goals
            (try refine rxzero_pushGetDataMsg maxInv env.choice p _ _ ?_ hst0) <;>
            (repeat' refine rxzero_setPeer ?_ ?_) <;>
            (first | exact h | exact hst0)
  | tx p th =>
    simp only [handleEvent]
    unfold handleTxMsg
    split
    · exact h
    next st heq =>
      have hst0 : st.receivedTxs = 0 := h _ (lookup_mem heq)
      split
      · exact h
      · repeat' (first | split | simp only [])
        all_goals
          (repeat' refine rxzero_setPeer ?_ ?_) <;>
          (first | exact h | exact hst0)
  | bloomDone p =>
    simp only [handleEvent, handleBloomDone]
    split
    · exact h
    · exact rxzero_setPeer h rfl

theorem rxzero_reachable (maxInv : Nat) (cfg : Config) (sm : SyncManager)
    (hr : Reachable maxInv cfg sm) : RxZero sm := by
  induction hr with
  | refl => intro e he; cases he
  | tail hsteps hstep ih =>
    obtain ⟨ev, env, heq⟩ := hstep
    rw [← heq]
    exact rxzero_handleEvent maxInv cfg env _ ev ih

/-- Claim C9.  In every reachable state every registered peer has
`receivedTxs = 0`, because no path of `handleTxMsg` (or of any other
handler) increments it, and `falsePosRate` divides by it with no zero
guard.  Hence for a false-positive transaction that passes the
provenance check, as soon as the updated `falsePositives` counter is
nonzero (the parenthetical `falsePositives ≥ 1` of the claim; true for
every uint32 value except the wrap at 2^32-1), the float comparison
`falsePositives/0 = +Inf > 0.001` holds and `updateBloomFilter` is
invoked on the peer — regardless of how many transactions it has
delivered. -/
theorem fp_zero_rx_triggers_filter (maxInv : Nat) (cfg : Config)
    (env : Env) (sm : SyncManager) (p : PeerId) (st : peerSyncState)
    (h : Hash)
    (hr : Reachable maxInv cfg sm)
    (hst : List.lookup p sm.peerStates = some st)
    (hh : h ∈ st.requestedTxns)
    (hfp : env.commitTxFp = true)
    (hw : u32succ st.falsePositives ≠ 0) :
    st.receivedTxs = 0 ∧
    rateGtMax (u32succ st.falsePositives) st.receivedTxs = true ∧
    Effect.updateBloomFilter p ∈ (handleEvent maxInv cfg env sm (Event.tx p h)).2 := by
  have hrx : st.receivedTxs = 0 :=
    rxzero_reachable maxInv cfg sm hr _ (lookup_mem hst)
  have hrate : rateGtMax (u32succ st.falsePositives) st.receivedTxs = true := by
    rw [hrx]
    simp [rateGtMax, hw]
  refine ⟨hrx, hrate, ?_⟩
  simp only [handleEvent, handleTxMsg, hst]
  rw [if_neg (not_not_intro hh), if_pos hfp]
  split
  · simp
  next hc => exact absurd hrate hc

/-- Witness for claim C9 at the reachable state `mgrT2` (peer 0 with
transaction 5 in flight, all counters zero) and a false-positive
commit. -/
theorem fp_zero_rx_triggers_filter_witness :
    ({ freshPeerState false with requestedTxns := {5} } : peerSyncState).receivedTxs = 0 ∧
    rateGtMax (u32succ ({ freshPeerState false with requestedTxns := {5} } : peerSyncState).falsePositives)
      ({ freshPeerState false with requestedTxns := {5} } : peerSyncState).receivedTxs = true ∧
    Effect.updateBloomFilter 0 ∈ (handleEvent 10 cfgOne envFp mgrT2 (Event.tx 0 5)).2 := by
  have h1 : Step 10 cfgOne initialState mgrA1 :=
    ⟨Event.newPeer 0 ⟨false, false⟩, envZero, by decide⟩
  have h2 : Step 10 cfgOne mgrA1 mgrT2 :=
    ⟨Event.inv 0 [⟨InvType.tx, 5⟩], envZero, by decide⟩
  exact fp_zero_rx_triggers_filter 10 cfgOne envFp mgrT2 0
    { freshPeerState false with requestedTxns := {5} } 5
    (Relation.ReflTransGen.tail (Relation.ReflTransGen.tail Relation.ReflTransGen.refl h1) h2)
    (by decide) (by decide) rfl (by decide)

end SpvSync
